import Mathlib

/-!
Verification of the extraction and change-detection engine of QCrawler
(src/QCrawler.py, src/models.py).

The Python source is shallowly embedded: strings are modelled as `List Char`
(wrapped in `String` at some boundaries), Python dictionaries as association
lists, JSON documents as an inductive value type, parsed markup as an
inductive node tree.  The functions of the Python standard library that the
source calls (urllib.parse.unquote/quote/urlsplit/urljoin, str.strip,
str.split, str.lower, datetime.fromtimestamp + strftime) are embedded
following their CPython implementations.  Machine-local behaviour
(the host timezone used by datetime.fromtimestamp) is made explicit as a
parameter.  Tree traversals use a fuel argument (always called with a fuel
that exceeds the tree size) so that all definitions compute by kernel
reduction.
-/

set_option maxRecDepth 4096

namespace QCrawler

/-! ## Basic character and list utilities -/

/-- Python whitespace characters (the common ones; str.strip also strips a
few rarer unicode spaces that never occur in the claims). -/
def isSpaceC (c : Char) : Bool :=
  c = ' ' ∨ c = '\t' ∨ c = '\n' ∨ c = '\r' ∨ c = '\x0b' ∨ c = '\x0c'

/-- Embedding of Python str.strip() (no argument). -/
def stripL (l : List Char) : List Char :=
  ((l.dropWhile isSpaceC).reverse.dropWhile isSpaceC).reverse

/-- Embedding of Python str.strip(chars) for a single strip character. -/
def stripCharL (ch : Char) (l : List Char) : List Char :=
  ((l.dropWhile (· = ch)).reverse.dropWhile (· = ch)).reverse

/-- ASCII lower-casing of one character, as used by str.lower() on the
ASCII range (the claims only test ASCII prefixes). -/
def lowerC (c : Char) : Char :=
  if 'A' ≤ c ∧ c ≤ 'Z' then Char.ofNat (c.toNat + 32) else c

/-- Embedding of Python str.lower() on the ASCII range. -/
def lowerL (l : List Char) : List Char := l.map lowerC

/-- Substring test, Python `sub in s`. -/
def containsSub (pat : List Char) (s : List Char) : Bool :=
  pat.isPrefixOf s ||
    match s with
    | [] => false
    | _ :: rest => containsSub pat rest

/-- Python str.split() with no argument: split on whitespace runs,
dropping empty pieces. -/
def splitWsL (l : List Char) : List (List Char) :=
  splitWsAux l []
where
  /-- Accumulates the current word (reversed) and splits the rest. -/
  splitWsAux : List Char → List Char → List (List Char)
    | [], acc => if acc = [] then [] else [acc.reverse]
    | c :: rest, acc =>
      if isSpaceC c then
        (if acc = [] then [] else [acc.reverse]) ++ splitWsAux rest []
      else
        splitWsAux rest (c :: acc)

/-- Python str.split(sep) for a one-character separator: keeps empty
pieces, `[[]]` on the empty string. -/
def splitCharL (sep : Char) : List Char → List (List Char)
  | [] => [[]]
  | c :: rest =>
    let r := splitCharL sep rest
    if c = sep then [] :: r
    else
      match r with
      | [] => [[c]]
      | p :: ps => (c :: p) :: ps

/-- Join a list of pieces with a one-character separator, Python sep.join. -/
def joinCharL (sep : Char) : List (List Char) → List Char
  | [] => []
  | [p] => p
  | p :: ps => p ++ sep :: joinCharL sep ps

/-! ## Percent decoding and encoding (urllib.parse.unquote / quote) -/

/-- Hex digit value. -/
def hexVal (c : Char) : Option Nat :=
  if '0' ≤ c ∧ c ≤ '9' then some (c.toNat - 48)
  else if 'a' ≤ c ∧ c ≤ 'f' then some (c.toNat - 87)
  else if 'A' ≤ c ∧ c ≤ 'F' then some (c.toNat - 55)
  else none

/-- First pass of unquote: turn every valid %XX escape into a byte,
leave every other character alone (CPython leaves a stray % literally). -/
def pctTokens : List Char → List (Sum Char Nat)
  | '%' :: h1 :: h2 :: rest =>
    match hexVal h1, hexVal h2 with
    | some a, some b => Sum.inr (16 * a + b) :: pctTokens rest
    | _, _ => Sum.inl '%' :: pctTokens (h1 :: h2 :: rest)
  | c :: rest => Sum.inl c :: pctTokens rest
  | [] => []

/-- Is a byte a UTF-8 continuation byte. -/
def isCont (b : Nat) : Bool := 0x80 ≤ b ∧ b ≤ 0xBF

/-- UTF-8 decoding of a byte run with U+FFFD replacement on error
(the errors="replace" mode used by unquote); fuelled so that it computes
by kernel reduction (every step consumes at least one byte, so a fuel of
the byte count is enough). -/
def utf8DecodeAux : Nat → List Nat → List Char
  | 0, _ => []
  | _ + 1, [] => []
  | f + 1, b :: rest =>
    if b < 0x80 then
      Char.ofNat b :: utf8DecodeAux f rest
    else if 0xC2 ≤ b ∧ b ≤ 0xDF then
      match rest with
      | b2 :: rest2 =>
        if isCont b2 then Char.ofNat ((b - 0xC0) * 64 + (b2 - 0x80)) :: utf8DecodeAux f rest2
        else '�' :: utf8DecodeAux f rest
      | [] => ['�']
    else if 0xE0 ≤ b ∧ b ≤ 0xEF then
      match rest with
      | b2 :: b3 :: rest3 =>
        if (isCont b2 && isCont b3 &&
            !(b = 0xE0 && b2 < 0xA0) && !(b = 0xED && b2 > 0x9F)) then
          Char.ofNat ((b - 0xE0) * 4096 + (b2 - 0x80) * 64 + (b3 - 0x80)) :: utf8DecodeAux f rest3
        else '�' :: utf8DecodeAux f rest
      | _ => '�' :: utf8DecodeAux f rest
    else if 0xF0 ≤ b ∧ b ≤ 0xF4 then
      match rest with
      | b2 :: b3 :: b4 :: rest4 =>
        if (isCont b2 && isCont b3 && isCont b4 &&
            !(b = 0xF0 && b2 < 0x90) && !(b = 0xF4 && b2 > 0x8F)) then
          Char.ofNat ((b - 0xF0) * 262144 + (b2 - 0x80) * 4096 + (b3 - 0x80) * 64 + (b4 - 0x80))
            :: utf8DecodeAux f rest4
        else '�' :: utf8DecodeAux f rest
      | _ => '�' :: utf8DecodeAux f rest
    else '�' :: utf8DecodeAux f rest

/-- UTF-8 decoding of a byte run with replacement. -/
def utf8DecodeL (bs : List Nat) : List Char := utf8DecodeAux bs.length bs

/-- Second pass of unquote: maximal byte runs are UTF-8 decoded, other
characters pass through.  The accumulator holds the current byte run
reversed. -/
def decodePct : List (Sum Char Nat) → List Nat → List Char
  | [], acc => utf8DecodeL acc.reverse
  | Sum.inl c :: rest, acc => utf8DecodeL acc.reverse ++ c :: decodePct rest []
  | Sum.inr b :: rest, acc => decodePct rest (b :: acc)

/-- Embedding of urllib.parse.unquote. -/
def unquoteL (l : List Char) : List Char := decodePct (pctTokens l) []

/-- UTF-8 encoding of one character. -/
def utf8EncodeC (c : Char) : List Nat :=
  let n := c.toNat
  if n < 0x80 then [n]
  else if n < 0x800 then [0xC0 + n / 64, 0x80 + n % 64]
  else if n < 0x10000 then [0xE0 + n / 4096, 0x80 + (n / 64) % 64, 0x80 + n % 64]
  else [0xF0 + n / 262144, 0x80 + (n / 4096) % 64, 0x80 + (n / 64) % 64, 0x80 + n % 64]

/-- Characters urllib.parse.quote never encodes (its _ALWAYS_SAFE set). -/
def alwaysSafeC (c : Char) : Bool :=
  ('a' ≤ c ∧ c ≤ 'z') ∨ ('A' ≤ c ∧ c ≤ 'Z') ∨ ('0' ≤ c ∧ c ≤ '9') ∨
  c = '_' ∨ c = '.' ∨ c = '-' ∨ c = '~'

/-- Upper-case hex digit. -/
def hexDigitC (n : Nat) : Char :=
  if n < 10 then Char.ofNat (48 + n) else Char.ofNat (55 + n)

/-- Percent-encode one byte unless it is safe. -/
def quoteByte (safe : List Char) (b : Nat) : List Char :=
  let c := Char.ofNat b
  if b < 0x80 ∧ (alwaysSafeC c ∨ c ∈ safe) then [c]
  else ['%', hexDigitC (b / 16), hexDigitC (b % 16)]

/-- Embedding of urllib.parse.quote(s, safe). -/
def quoteL (safe : List Char) (l : List Char) : List Char :=
  (l.flatMap utf8EncodeC).flatMap (quoteByte safe)

/-! ## urllib.parse: urlsplit, urlunsplit, urljoin -/

/-- The five components of a split URL. -/
structure SplitResult where
  scheme : List Char
  netloc : List Char
  path : List Char
  query : List Char
  fragment : List Char
deriving Repr, DecidableEq

/-- WHATWG C0 control or space, stripped from the left of a URL by
urlsplit. -/
def c0OrSpace (c : Char) : Bool := c.toNat ≤ 0x20

/-- Characters legal in a URL scheme after the first. -/
def schemeCharC (c : Char) : Bool :=
  ('a' ≤ c ∧ c ≤ 'z') ∨ ('A' ≤ c ∧ c ≤ 'Z') ∨ ('0' ≤ c ∧ c ≤ '9') ∨
  c = '+' ∨ c = '-' ∨ c = '.'

/-- Index of the first colon, if any. -/
def findColonIdx : List Char → Option Nat
  | [] => none
  | c :: rest =>
    if c = ':' then some 0
    else (findColonIdx rest).map (· + 1)

/-- Is an ASCII letter. -/
def asciiAlphaC (c : Char) : Bool := ('a' ≤ c ∧ c ≤ 'z') ∨ ('A' ≤ c ∧ c ≤ 'Z')

/-- Scheme detection of urlsplit: chars before the first colon form the
scheme when the first is an ASCII letter and the rest are scheme
characters; the scheme is lower-cased.  Returns (scheme, rest). -/
def splitScheme (url : List Char) (dflt : List Char) : List Char × List Char :=
  match findColonIdx url with
  | none => (dflt, url)
  | some i =>
    if 0 < i ∧ (url.take i).all schemeCharC ∧
        (match url.head? with
         | some c => asciiAlphaC c
         | none => false) = true then
      (lowerL (url.take i), url.drop (i + 1))
    else (dflt, url)

/-- The netloc of a URL ends at the first of / ? #. -/
def netlocEndC (c : Char) : Bool := c = '/' ∨ c = '?' ∨ c = '#'

/-- Split at the first occurrence of a character: (before, after); the
second component is [] when the character is absent (Python
str.split(c, 1) with a presence test first). -/
def splitOnceChar (sep : Char) : List Char → List Char × List Char
  | [] => ([], [])
  | c :: rest =>
    if c = sep then ([], rest)
    else
      let p := splitOnceChar sep rest
      (c :: p.1, p.2)

/-- Does the character occur in the list. -/
def memC (sep : Char) (l : List Char) : Bool := l.any (· = sep)

/-- Embedding of urllib.parse.urlsplit (without the IPv6 bracket
check, which only raises on URLs the claims never build). -/
def urlsplitL (url0 : List Char) (dflt : List Char) : SplitResult :=
  let url1 := url0.dropWhile c0OrSpace
  let url2 := url1.filter (fun c => ¬ (c = '\t' ∨ c = '\r' ∨ c = '\n'))
  let sr := splitScheme url2 dflt
  let scheme := sr.1
  let rest := sr.2
  let nr :=
    if rest.take 2 = ['/', '/'] then
      ((rest.drop 2).takeWhile (fun c => ¬ netlocEndC c),
       (rest.drop 2).dropWhile (fun c => ¬ netlocEndC c))
    else ([], rest)
  let netloc := nr.1
  let rest2 := nr.2
  let fr := if memC '#' rest2 then splitOnceChar '#' rest2 else (rest2, [])
  let qr := if memC '?' fr.1 then splitOnceChar '?' fr.1 else (fr.1, [])
  ⟨scheme, netloc, qr.1, qr.2, fr.2⟩

/-- Embedding of urllib.parse.urlunsplit. -/
def urlunsplitL (s : SplitResult) : List Char :=
  let url :=
    if s.netloc ≠ [] ∨ (s.path ≠ [] ∧ s.path.take 2 = ['/', '/']) then
      '/' :: '/' :: s.netloc ++
        (if s.path ≠ [] ∧ s.path.take 1 ≠ ['/'] then '/' :: s.path else s.path)
    else s.path
  let url2 := if s.scheme ≠ [] then s.scheme ++ ':' :: url else url
  let url3 := if s.query ≠ [] then url2 ++ '?' :: s.query else url2
  if s.fragment ≠ [] then url3 ++ '#' :: s.fragment else url3

/-- urllib.parse.uses_relative. -/
def usesRelativeL : List (List Char) :=
  [[], "ftp".data, "http".data, "gopher".data, "nntp".data, "imap".data,
   "wais".data, "file".data, "https".data, "shttp".data, "mms".data,
   "prospero".data, "rtsp".data, "rtspu".data, "sftp".data, "svn".data,
   "svn+ssh".data, "ws".data, "wss".data]

/-- urllib.parse.uses_netloc. -/
def usesNetlocL : List (List Char) :=
  [[], "ftp".data, "http".data, "gopher".data, "nntp".data, "telnet".data,
   "imap".data, "wais".data, "file".data, "mms".data, "https".data,
   "shttp".data, "snews".data, "prospero".data, "rtsp".data, "rtspu".data,
   "rsync".data, "svn".data, "svn+ssh".data, "sftp".data, "nfs".data,
   "git".data, "git+ssh".data, "ws".data, "wss".data, "itms-services".data]

/-- Drop empty middle segments (Python segments[1:-1] = filter(None, ...)),
keeping the last element. -/
def filterMidTail : List (List Char) → List (List Char)
  | [] => []
  | [a] => [a]
  | a :: rest => if a = [] then filterMidTail rest else a :: filterMidTail rest

/-- Keep the first element, filter empty segments from the middle. -/
def filterMiddle : List (List Char) → List (List Char)
  | [] => []
  | [a] => [a]
  | a :: rest => a :: filterMidTail rest

/-- The segment resolution loop of urljoin; the accumulator holds the
resolved path reversed (so Python resolved_path.pop() is a tail). -/
def resolveSegs : List (List Char) → List (List Char) → List (List Char)
  | [], acc => acc.reverse
  | seg :: rest, acc =>
    if seg = ['.', '.'] then resolveSegs rest acc.tail
    else if seg = ['.'] then resolveSegs rest acc
    else resolveSegs rest (seg :: acc)

/-- Embedding of urllib.parse.urljoin. -/
def urljoinL (base url : List Char) : List Char :=
  if base = [] then url
  else if url = [] then base
  else
    let b := urlsplitL base []
    let r := urlsplitL url b.scheme
    if r.scheme ≠ b.scheme ∨ ¬ usesRelativeL.contains r.scheme then url
    else
      let netloc0 := r.netloc
      if usesNetlocL.contains r.scheme ∧ netloc0 ≠ [] then
        urlunsplitL ⟨r.scheme, netloc0, r.path, r.query, r.fragment⟩
      else
        let netloc := if usesNetlocL.contains r.scheme then b.netloc else netloc0
        if r.path = [] then
          urlunsplitL ⟨r.scheme, netloc, b.path,
            (if r.query = [] then b.query else r.query), r.fragment⟩
        else
          let baseParts0 := splitCharL '/' b.path
          let baseParts :=
            if baseParts0.getLast? ≠ some [] then baseParts0.dropLast else baseParts0
          let segments :=
            if r.path.take 1 = ['/'] then splitCharL '/' r.path
            else filterMiddle (baseParts ++ splitCharL '/' r.path)
          let resolved := resolveSegs segments []
          let joined := joinCharL '/' resolved
          urlunsplitL ⟨r.scheme, netloc,
            (if joined = [] then ['/'] else joined), r.query, r.fragment⟩

/-! ## UniversalCrawler._normalize_url -/

/-- The three prefixes _normalize_url rejects. -/
def badPrefixes : List (List Char) := ["javascript:".data, "mailto:".data, ['#']]

/-- Does the lowered string start with one of the rejected prefixes
(the tuple startswith test of line 106). -/
def startsWithBad (l : List Char) : Bool :=
  badPrefixes.any (fun p => p.isPrefixOf l)

/-- Embedding of url.replace(" ", "%20") (line 103). -/
def replaceSpaceL : List Char → List Char
  | [] => []
  | c :: rest => (if c = ' ' then ['%', '2', '0'] else [c]) ++ replaceSpaceL rest

/-- Embedding of re.match(r"^www\\.", url): because the dot is doubly
escaped inside a raw string, the pattern matches the literal characters
w w w backslash followed by any character except a newline. -/
def matchWwwPattern (l : List Char) : Bool :=
  match l with
  | 'w' :: 'w' :: 'w' :: '\\' :: c :: _ => c ≠ '\n'
  | _ => false

/-- Embedding of UniversalCrawler._normalize_url (lines 95-134); `base`
is the crawler self.url. -/
def normalizeUrlL (base : List Char) (url0 : List Char) : List Char :=
  if url0 = [] then []
  else
    let u1 := stripL url0
    let u2 := unquoteL u1
    let u := replaceSpaceL u2
    if startsWithBad (lowerL u) then []
    else if ['/'].isPrefixOf u ∨ ['.', '/'].isPrefixOf u ∨ ['.', '.', '/'].isPrefixOf u then
      urljoinL base u
    else if ¬ ("http://".data.isPrefixOf u ∨ "https://".data.isPrefixOf u) then
      if matchWwwPattern u then "http://".data ++ u
      else urljoinL base u
    else
      let parsed := urlsplitL u []
      if parsed.scheme = [] ∨ parsed.netloc = [] then
        let fixed := urljoinL base u
        let pf := urlsplitL fixed []
        if pf.scheme ≠ [] ∧ pf.netloc ≠ [] then fixed else []
      else
        quoteL ":/?&=#%".data u

/-- String-level wrapper of _normalize_url. -/
def normalizeUrl (base url : String) : String :=
  ⟨normalizeUrlL base.data url.data⟩

/-! ## JSON documents and the json branch of UniversalCrawler.crawl -/

/-- JSON values; numbers are modelled as integers (the claims involve
only integer timestamps). -/
inductive Json where
  | null
  | bool (b : Bool)
  | num (n : Int)
  | str (s : String)
  | arr (elems : List Json)
  | obj (fields : List (String × Json))

/-- Python truthiness of a JSON value. -/
def jsonTruthy : Json → Bool
  | .null => false
  | .bool b => b
  | .num n => n ≠ 0
  | .str s => s ≠ ""
  | .arr l => !l.isEmpty
  | .obj l => !l.isEmpty

/-- First-match lookup in an association list (Python dict.get). -/
def lookupS {β : Type} (k : String) : List (String × β) → Option β
  | [] => none
  | (k2, v) :: rest => if k2 = k then some v else lookupS k rest

/-- dict.get with default. -/
def lookupSD (k : String) (dflt : String) (m : List (String × String)) : String :=
  (lookupS k m).getD dflt

/-- Embedding of Python int(x) on the JSON values the crawler can see:
integers pass through, booleans become 0/1, numeric strings (optional
sign, surrounding whitespace) parse; everything else raises, modelled
as none. -/
def pyIntJ : Json → Option Int
  | .num n => some n
  | .bool b => some (if b then 1 else 0)
  | .str s =>
    let t := stripL s.data
    let core := match t with
      | '+' :: rest => some (rest, (1 : Int))
      | '-' :: rest => some (rest, (-1 : Int))
      | rest => some (rest, (1 : Int))
    match core with
    | some (ds, sign) =>
      if ds ≠ [] ∧ ds.all Char.isDigit then
        some (sign * (ds.foldl (fun acc c => acc * 10 + (c.toNat - 48)) (0 : Nat) : Nat))
      else none
    | none => none
  | _ => none

/-- Civil date (year, month, day) of a day count relative to 1970-01-01,
by the standard days-to-civil algorithm; all divisions act on
nonnegative operands after the era shift. -/
def civilFromDays (days : Int) : Int × Int × Int :=
  let z := days + 719468
  let era := Int.fdiv z 146097
  let doe := z - era * 146097
  let yoe := (doe - doe / 1460 + doe / 36524 - doe / 146096) / 365
  let y := yoe + era * 400
  let doy := doe - (365 * yoe + yoe / 4 - yoe / 100)
  let mp := (5 * doy + 2) / 153
  let d := doy - (153 * mp + 2) / 5 + 1
  let m := mp + (if mp < 10 then 3 else -9)
  (y + (if m ≤ 2 then 1 else 0), m, d)

/-- Decimal digits of a natural number (fuelled). -/
def natToCharsAux : Nat → Nat → List Char
  | 0, _ => []
  | f + 1, n =>
    if n < 10 then [Char.ofNat (48 + n)]
    else natToCharsAux f (n / 10) ++ [Char.ofNat (48 + n % 10)]

/-- Decimal digits of a natural number. -/
def natToChars (n : Nat) : List Char := natToCharsAux (n + 1) n

/-- Zero padding to a width, as the %Y / %m / %d strftime directives. -/
def padZero (w : Nat) (l : List Char) : List Char :=
  List.replicate (w - l.length) '0' ++ l

/-- strftime("%Y-%m-%d") of a civil date. -/
def fmtYMD (y m d : Int) : String :=
  ⟨padZero 4 (natToChars y.toNat) ++ '-' :: padZero 2 (natToChars m.toNat)
    ++ '-' :: padZero 2 (natToChars d.toNat)⟩

/-- Embedding of datetime.fromtimestamp(ts).strftime("%Y-%m-%d").
datetime.fromtimestamp converts in the local timezone of the host, made
explicit here as the offset `tz` in seconds east of UTC; the conversion
raises (none) when the resulting year leaves the datetime range. -/
def fromtsYMD (tz : Int) (ts : Int) : Option String :=
  let days := Int.fdiv (ts + tz) 86400
  let c := civilFromDays days
  if 1 ≤ c.1 ∧ c.1 ≤ 9999 then some (fmtYMD c.1 c.2.1 c.2.2) else none

/-- One extracted record of the json branch: the raw values stored for
the title, url and date keys (none when the key is absent, mirroring
dict.get returning None). -/
structure JRec where
  title : Option Json
  url : Option Json
  date : Option Json

/-- Embedding of the per-item body of the json loop of crawl
(lines 280-293): field lookup plus the optional timestamp conversion
with its try/except that keeps the raw value on failure. -/
def recordOfItem (titleKey urlKey dateKey : String) (dateFormat : Option String)
    (tz : Int) (fs : List (String × Json)) : JRec :=
  let d0 := lookupS dateKey fs
  let d :=
    match d0 with
    | none => none
    | some dv =>
      if jsonTruthy dv ∧ dateFormat = some "timestamp" then
        match pyIntJ dv with
        | none => some dv
        | some i =>
          match fromtsYMD tz i with
          | none => some dv
          | some s => some (Json.str s)
      else some dv
  ⟨lookupS titleKey fs, lookupS urlKey fs, d⟩

/-- The item loop of the json branch: every item must be a mapping;
a non-mapping item raises, the exception is caught at the top of crawl
and the whole call returns [] (partial results are discarded). -/
def recordsOfItems (titleKey urlKey dateKey : String) (dateFormat : Option String)
    (tz : Int) : List Json → Option (List JRec)
  | [] => some []
  | .obj fs :: rest =>
    (recordsOfItems titleKey urlKey dateKey dateFormat tz rest).map
      (recordOfItem titleKey urlKey dateKey dateFormat tz fs :: ·)
  | _ :: _ => none

/-- The json_path walk (lines 260-266): on a mapping take the segment
key with default [], on anything else break, keeping the current
cursor. -/
def walkPath : Json → List String → Json
  | j, [] => j
  | j, p :: ps =>
    match j with
    | .obj fields => walkPath ((lookupS p fields).getD (Json.arr [])) ps
    | other => other

/-- json_path.split("."). -/
def splitDotS (p : String) : List String :=
  (splitCharL '.' p.data).map (fun l => ⟨l⟩)

/-- Embedding of the json branch of UniversalCrawler.crawl
(lines 258-294), after the HTTP fetch: path walk, list check with the
single-key fallback, field mapping, item loop.  `tz` is the host local
timezone offset used by datetime.fromtimestamp. -/
def crawlJson (tz : Int) (data : Json) (jsonPath : Option String)
    (fieldMap : List (String × String)) : List JRec :=
  let items :=
    match jsonPath with
    | some p => if p ≠ "" then walkPath data (splitDotS p) else data
    | none => data
  let listOpt : Option (List Json) :=
    match items with
    | .arr l => some l
    | .obj [(_, .arr l)] => some l
    | _ => none
  match listOpt with
  | none => []
  | some l =>
    match recordsOfItems (lookupSD "title" "title" fieldMap) (lookupSD "url" "url" fieldMap)
        (lookupSD "date" "date" fieldMap) (lookupS "date_format" fieldMap) tz l with
    | some rs => rs
    | none => []

/-! ## Parsed markup and the markup extractor -/

mutual
/-- A parsed markup node: a text fragment or an element with tag,
attributes and children.  Attribute values are strings (the str branch
of the class handling in _should_exclude).  The children sit in a
dedicated list type so that every traversal is a mutual structural
recursion that computes by kernel reduction. -/
inductive Node where
  | text (s : String)
  | elem (tag : String) (attrs : List (String × String)) (children : NodeList)
/-- Children of an element. -/
inductive NodeList where
  | nil
  | cons (head : Node) (tail : NodeList)
end

/-- Build a child list from a plain list. -/
def NodeList.ofList : List Node → NodeList
  | [] => .nil
  | n :: rest => .cons n (NodeList.ofList rest)

/-- Attribute lookup, BeautifulSoup tag.get(name). -/
def getAttrN (name : String) : Node → Option String
  | .text _ => none
  | .elem _ attrs _ => lookupS name attrs

/-- The class list of a node: the space-split class attribute. -/
def classListN (n : Node) : List (List Char) :=
  match getAttrN "class" n with
  | some v => splitWsL v.data
  | none => []

mutual
/-- All text fragments of a node in document order. -/
def nodeTexts : Node → List (List Char)
  | .text s => [s.data]
  | .elem _ _ ch => nodeListTexts ch
/-- All text fragments of a node list in document order. -/
def nodeListTexts : NodeList → List (List Char)
  | .nil => []
  | .cons n cs => nodeTexts n ++ nodeListTexts cs
end

/-- Embedding of tag.get_text(strip=True): strip every fragment, drop
the empty ones, concatenate. -/
def getTextStrip (n : Node) : List Char :=
  ((nodeTexts n).map stripL).filter (· ≠ []) |>.foldr (· ++ ·) []

/-- One exclusion rule as a dictionary: the optional keys class, id,
attr (itself a small dictionary with name and value) and text, exactly
the keys _should_exclude inspects. -/
structure RuleDict where
  cls : Option String
  id : Option String
  attr : Option (List (String × String))
  txt : Option String

/-- One entry of the exclude list: a rule dictionary, or any
non-mapping value (skipped by the isinstance check of line 149). -/
inductive ExcludeEntry where
  | rule (r : RuleDict)
  | nonDict (v : String)

/-- Embedding of check_element (lines 144-183): try every rule in
order; inside a rule check class, id, attr, text in order; text nodes
have no attrs and never match. -/
def checkElement (rules : List ExcludeEntry) (e : Node) : Bool :=
  match e with
  | .text _ => false
  | _ =>
    rules.any fun entry =>
      match entry with
      | .nonDict _ => false
      | .rule r =>
        (match r.cls with
         | some cv => (splitWsL cv.data).all (fun c => (classListN e).contains c)
         | none => false) ||
        (match r.id with
         | some iv => getAttrN "id" e = some iv
         | none => false) ||
        (match r.attr with
         | some ad =>
           (match lookupS "name" ad, lookupS "value" ad with
            | some an, some av =>
              if an ≠ "" ∧ av ≠ "" then getAttrN an e = some av else false
            | _, _ => false)
         | none => false) ||
        (match r.txt with
         | some tv => containsSub tv.data (getTextStrip e)
         | none => false)

/-- Embedding of UniversalCrawler._should_exclude (lines 136-198): the
node itself, then its ancestors nearest first, at most 5 of them. -/
def shouldExclude (rules : List ExcludeEntry) (tag : Node) (ancestors : List Node) : Bool :=
  match tag with
  | .text _ => false
  | _ => checkElement rules tag || (ancestors.take 5).any (checkElement rules)

/-- First element with a given tag name among a node list and its
subtrees, preorder; the descendant search of BeautifulSoup
tag.find(name). -/
def findTagL (name : String) : NodeList → Option Node
  | .nil => none
  | .cons n cs =>
    match n with
    | .text _ => findTagL name cs
    | .elem t a ch =>
      if t = name then some (Node.elem t a ch)
      else
        match findTagL name ch with
        | some r => some r
        | none => findTagL name cs

/-- container.find("a"). -/
def findA (n : Node) : Option Node :=
  match n with
  | .text _ => none
  | .elem _ _ ch => findTagL "a" ch

/-- The date keywords of line 226. -/
def dateKeywords : List (List Char) :=
  ["date".data, "time".data, "pub".data, "时间".data, "日期".data]

/-- The class_ lambda of line 226: the node has a class attribute whose
lowered text contains one of the keywords. -/
def hasDateClass (n : Node) : Bool :=
  match getAttrN "class" n with
  | some v => dateKeywords.any (fun kw => containsSub kw (lowerL v.data))
  | none => false

/-- First element matching the date class lambda among a node list and
its subtrees, preorder. -/
def findDateL : NodeList → Option Node
  | .nil => none
  | .cons n cs =>
    match n with
    | .text _ => findDateL cs
    | .elem t a ch =>
      if hasDateClass (Node.elem t a ch) then some (Node.elem t a ch)
      else
        match findDateL ch with
        | some r => some r
        | none => findDateL cs

/-- container.find(class_=date lambda). -/
def findDateElem (n : Node) : Option Node :=
  match n with
  | .text _ => none
  | .elem _ _ ch => findDateL ch

/-- First separator class of the date pattern of line 232. -/
def dateSep1 (c : Char) : Bool := c = '-' ∨ c = '年' ∨ c = '/'

/-- Second separator class of the date pattern of line 232. -/
def dateSep2 (c : Char) : Bool := c = '-' ∨ c = '月' ∨ c = '/'

/-- Greedy day match at the end of the pattern. -/
def matchDay : List Char → Option (List Char)
  | d1 :: d2 :: _ =>
    if d1.isDigit then (if d2.isDigit then some [d1, d2] else some [d1]) else none
  | [d1] => if d1.isDigit then some [d1] else none
  | [] => none

/-- Separator then day. -/
def matchSepDay : List Char → Option (List Char)
  | s :: rest => if dateSep2 s then (matchDay rest).map (s :: ·) else none
  | [] => none

/-- Greedy month (two digits, backtracking to one) then separator and
day. -/
def matchMD : List Char → Option (List Char)
  | m1 :: m2 :: rest =>
    if m1.isDigit then
      if m2.isDigit then
        match matchSepDay rest with
        | some md => some (m1 :: m2 :: md)
        | none => (matchSepDay (m2 :: rest)).map (m1 :: ·)
      else (matchSepDay (m2 :: rest)).map (m1 :: ·)
    else none
  | _ => none

/-- Match of the regex of line 232 anchored at the start of the list:
four digits, a separator, one or two digits, a separator, one or two
digits, with the greedy backtracking of the re module. -/
def matchDateAt : List Char → Option (List Char)
  | y1 :: y2 :: y3 :: y4 :: rest =>
    if y1.isDigit ∧ y2.isDigit ∧ y3.isDigit ∧ y4.isDigit then
      match rest with
      | s1 :: rest1 =>
        if dateSep1 s1 then (matchMD rest1).map (fun md => y1 :: y2 :: y3 :: y4 :: s1 :: md)
        else none
      | [] => none
    else none
  | _ => none

/-- re.findall(...)[0]: the leftmost match of the date pattern. -/
def findFirstDate : List Char → Option (List Char)
  | [] => none
  | c :: rest =>
    match matchDateAt (c :: rest) with
    | some m => some m
    | none => findFirstDate rest

/-- Date normalisation of lines 237-238: replace the year and month
markers with -, remove every day marker, strip - at both ends. -/
def normDateL (l : List Char) : List Char :=
  stripCharL '-' ((l.map (fun c => if c = '年' ∨ c = '月' then '-' else c)).filter (· ≠ '日'))

/-- The date extraction step of _extract_items (lines 224-238): prefer
the text of a date-hinted descendant, otherwise the first regex match in
the container text; normalise whichever was found. -/
def extractDateStep (c : Node) : Option (List Char) :=
  match findDateElem c with
  | some el =>
    let t := getTextStrip el
    if t ≠ [] then some (normDateL t) else none
  | none =>
    match findFirstDate (getTextStrip c) with
    | some m => some (normDateL m)
    | none => none

/-- Per-container body of the _extract_items loop (lines 214-240):
first link gives url (normalised) and title, the date step gives the
date, and a record is kept only when title and url are both non-empty. -/
def processContainer (base : List Char) (c : Node) :
    Option (List Char × List Char × Option (List Char)) :=
  match findA c with
  | none => none
  | some link =>
    let u := normalizeUrlL base ((getAttrN "href" link).getD "").data
    let t := getTextStrip link
    if t ≠ [] ∧ u ≠ [] then some (t, u, extractDateStep c) else none

/-- All li / div / article elements of a node list and its subtrees in
document order, each paired with its ancestor chain nearest first;
soup.find_all(["li", "div", "article"]). -/
def findContainersL (anc : List Node) : NodeList → List (Node × List Node)
  | .nil => []
  | .cons n cs =>
    match n with
    | .text _ => findContainersL anc cs
    | .elem t a ch =>
      (if t = "li" ∨ t = "div" ∨ t = "article" then [(Node.elem t a ch, anc)] else [])
        ++ findContainersL (Node.elem t a ch :: anc) ch
        ++ findContainersL anc cs

/-- Embedding of UniversalCrawler._extract_items (lines 200-247) for the
default selection (no CSS selector): select containers, filter by the
exclusion rules when the exclude list is non-empty, extract a record per
container. -/
def extractItems (base : List Char) (exclude : List ExcludeEntry) (soup : Node) :
    List (List Char × List Char × Option (List Char)) :=
  let containers :=
    match soup with
    | .text _ => []
    | .elem _ _ ch => findContainersL [soup] ch
  let kept :=
    if exclude.isEmpty then containers
    else containers.filter (fun p => !(shouldExclude exclude p.1 p.2))
  kept.filterMap (fun p => processContainer base p.1)

/-- Control-flow model of the try/for/except of _extract_items
(lines 203-247) with the loop body abstracted as a fallible function:
items are accumulated until the body raises, and on an exception the
items accumulated so far are returned (the loop is not resumed). -/
def extractLoopFlow {α β ε : Type} (f : α → Except ε (Option β)) (l : List α) : List β :=
  go l []
where
  go : List α → List β → List β
    | [], acc => acc.reverse
    | c :: cs, acc =>
      match f c with
      | .error _ => acc.reverse
      | .ok none => go cs acc
      | .ok (some r) => go cs (r :: acc)

/-! ## The snapshot differ of CrawlerManager.crawl_all -/

/-- One stored record as crawl_all sees it, with the url drawn from an
arbitrary type with decidable equality. -/
structure RecU (α : Type) where
  title : String
  url : α
  date : Option String
deriving DecidableEq

/-- Embedding of the new-item selection of crawl_all (lines 391-401):
new_urls is after minus before when both sets are non-empty, otherwise
every current url; the pushed records are the current records whose url
is in new_urls. -/
def selectNew {α : Type} [DecidableEq α] (before after : Finset α)
    (results : List (RecU α)) : List (RecU α) :=
  let newUrls : Finset α :=
    if before ≠ ∅ ∧ after ≠ ∅ then after \ before
    else (results.map RecU.url).toFinset
  results.filter (fun r => r.url ∈ newUrls)

/-! ## Fixtures used by the claim theorems -/

/-- A json feed with one item under data.list. -/
def itemDoc (v : Json) : Json :=
  .obj [("data", .obj [("list",
    .arr [.obj [("title", .str "T"), ("url", .str "/u"), ("date", v)]])])]

/-- Is a JSON value neither a list nor a mapping. -/
def jsonScalar : Json → Bool
  | .arr _ => false
  | .obj _ => false
  | _ => true

/-- A loop body for the control-flow model: container 0 raises, any
other container n yields the record n. -/
def bodyF3 (n : Nat) : Except Unit (Option Nat) :=
  if n = 0 then .error () else .ok (some n)

/-- The exclusion rule set of claim C7: one class rule requiring the
class ad. -/
def adRule : List ExcludeEntry := [.rule ⟨some "ad", none, none, none⟩]

/-- A container whose text holds an earlier date before 2024年01月02日. -/
def twoDatesPage : Node := .elem "div" [] (.ofList [.text "2023-05-06 2024年01月02日"])

/-- A container whose text holds only the date 2024年01月02日. -/
def oneDatePage : Node := .elem "div" [] (.ofList [.text "发布于2024年01月02日"])

/-- A one-container page with a link. -/
def helloPage : Node :=
  .elem "body" [] (.ofList [.elem "li" [] (.ofList
    [.elem "a" [("href", "/x")] (.ofList [.text "Hello"])])])

/-! ## Claim C1 -/

/-- Claim C1: the spec says an unschemed string starting with the
literal prefix www. is returned with http:// prepended.  The code
cannot take that branch: its pattern contains a double-escaped dot, so
the regex matches www followed by a backslash, never www followed by a
dot, and www.example.com is resolved against the base URL instead.
This theorem evaluates the embedded _normalize_url at the failing
input. -/
theorem c1_www_resolved_against_base :
    normalizeUrl "http://x.com/p/q" "www.example.com" = "http://x.com/p/www.example.com"
    ∧ normalizeUrl "http://x.com/p/q" "www.example.com" ≠ "http://www.example.com"
    ∧ matchWwwPattern "www.example.com".data = false
    ∧ matchWwwPattern "www\\x.org".data = true := by
  refine ⟨by decide, by decide, by decide, by decide⟩

/-! ## Claim C2 -/

/-- Claim C2 counterexample: on the document
data: (list: ((title: T, url: /u))) with jsonPath data.list.extra the
walk aborts on the non-mapping list cursor with the segment extra
unconsumed, yet the extractor yields one record, not an empty
sequence. -/
theorem c2_aborted_walk_not_empty :
    walkPath (itemDoc (Json.str "d")) (splitDotS "data.list.extra")
      = Json.arr [Json.obj [("title", Json.str "T"), ("url", Json.str "/u"),
          ("date", Json.str "d")]]
    ∧ (crawlJson 0 (itemDoc (Json.str "d")) (some "data.list.extra") []).length = 1
    ∧ (crawlJson 0 (itemDoc (Json.str "d")) (some "data.list.extra") []).map JRec.title
        = [some (Json.str "T")] :=
  ⟨rfl, rfl, rfl⟩

/-- Claim C2 (amended): when the dot-separated walk stops, the cursor
value it stopped on is handed to the list check unchanged, so the
result is empty only when that value is a scalar (or a mapping with no
single-key list); when the walk stops on a list, extraction proceeds on
that list. -/
theorem c2_abort_result_depends_on_cursor (tz : Int) (data : Json) (p : String)
    (fm : List (String × String)) (hp : p ≠ "") :
    (∀ l, walkPath data (splitDotS p) = Json.arr l →
      crawlJson tz data (some p) fm =
        (recordsOfItems (lookupSD "title" "title" fm) (lookupSD "url" "url" fm)
          (lookupSD "date" "date" fm) (lookupS "date_format" fm) tz l).getD [])
    ∧ (jsonScalar (walkPath data (splitDotS p)) = true →
      crawlJson tz data (some p) fm = []) := by
  constructor
  · intro l hl
    simp only [crawlJson, if_pos hp, hl]
    cases recordsOfItems (lookupSD "title" "title" fm) (lookupSD "url" "url" fm)
        (lookupSD "date" "date" fm) (lookupS "date_format" fm) tz l <;> rfl
  · intro hs
    simp only [crawlJson, if_pos hp]
    cases h : walkPath data (splitDotS p) <;> rw [h] at hs <;>
      simp [jsonScalar] at hs ⊢

/-- Claim C2 amended-theorem witness at the counterexample document. -/
theorem c2_abort_result_witness :
    crawlJson 0 (itemDoc (Json.str "d")) (some "data.list.extra") [] =
      (recordsOfItems "title" "url" "date" none 0
        [Json.obj [("title", Json.str "T"), ("url", Json.str "/u"),
          ("date", Json.str "d")]]).getD [] :=
  (c2_abort_result_depends_on_cursor 0 (itemDoc (Json.str "d")) "data.list.extra" []
    (by decide)).1 _ rfl

/-! ## Claim C3 -/

/-- Claim C3 counterexample: with the loop body raising on container 0,
the page (1, 0, 2) loses the record of the well-formed container 2: the
exception is caught outside the loop, so the containers after the
failing one are never processed. -/
theorem c3_later_container_lost :
    extractLoopFlow bodyF3 [1, 0, 2] = [1]
    ∧ bodyF3 2 = Except.ok (some 2)
    ∧ (2 : Nat) ∉ extractLoopFlow bodyF3 [1, 0, 2] := by
  refine ⟨rfl, rfl, by decide⟩

/-- Helper for claim C3: from any accumulator, the loop stops at the
first raising container, so the tail after it is irrelevant. -/
theorem extractLoopFlow_go_stop {α β ε : Type} (f : α → Except ε (Option β)) (c : α)
    (e : ε) (h : f c = Except.error e) (suf : List α) (pre : List α) :
    ∀ acc, extractLoopFlow.go f (pre ++ c :: suf) acc = extractLoopFlow.go f pre acc := by
  induction pre with
  | nil => intro acc; simp [extractLoopFlow.go, h]
  | cons a rest ih =>
    intro acc
    simp only [List.cons_append, extractLoopFlow.go]
    cases f a with
    | error e2 => rfl
    | ok o =>
      cases o with
      | none => exact ih acc
      | some r => exact ih (r :: acc)

/-- Claim C3 (amended): an exception while processing one container
aborts the extractor loop; the records accumulated from the containers
before the failing one are returned, and the containers after it are
never processed. -/
theorem c3_exception_keeps_prefix_only {α β ε : Type} (f : α → Except ε (Option β))
    (c : α) (e : ε) (h : f c = Except.error e) (pre suf : List α) :
    extractLoopFlow f (pre ++ c :: suf) = extractLoopFlow f pre := by
  unfold extractLoopFlow
  exact extractLoopFlow_go_stop f c e h suf pre []

/-- Claim C3 amended-theorem witness. -/
theorem c3_exception_keeps_prefix_witness :
    extractLoopFlow bodyF3 ([1] ++ 0 :: [2]) = extractLoopFlow bodyF3 [1] :=
  c3_exception_keeps_prefix_only bodyF3 0 () rfl [1] [2]

/-! ## Claim C4 -/

/-- Claim C4 counterexample: the json branch of crawl emits one record
per item unconditionally; an empty item yields a record whose title and
url are both absent, so the record invariant does not hold for the JSON
extractor. -/
theorem c4_json_emits_empty_record :
    (crawlJson 0 (Json.obj [("data", Json.arr [Json.obj []])]) (some "data") []).map JRec.title
        = [none]
    ∧ (crawlJson 0 (Json.obj [("data", Json.arr [Json.obj []])]) (some "data") []).map JRec.url
        = [none]
    ∧ (crawlJson 0 (Json.obj [("data", Json.arr [Json.obj []])]) (some "data") []).length = 1 :=
  ⟨rfl, rfl, rfl⟩

/-- Claim C4 (amended): the markup extractor discards a record at
construction unless title and url are both non-empty, while the json
extractor keeps one record per (mapping) item unconditionally, however
empty its fields. -/
theorem c4_markup_invariant_json_unconditional :
    (∀ (base : List Char) (exclude : List ExcludeEntry) (soup : Node) r,
      r ∈ extractItems base exclude soup → r.1 ≠ [] ∧ r.2.1 ≠ [])
    ∧ (∀ tk uk dk df (tz : Int) (l : List (List (String × Json))),
      recordsOfItems tk uk dk df tz (l.map Json.obj)
        = some (l.map (recordOfItem tk uk dk df tz))) := by
  constructor
  · intro base exclude soup r hr
    simp only [extractItems, List.mem_filterMap] at hr
    obtain ⟨p, _, hpc⟩ := hr
    unfold processContainer at hpc
    cases hA : findA p.1 with
    | none => rw [hA] at hpc; exact absurd hpc (by simp)
    | some link =>
      rw [hA] at hpc
      simp only at hpc
      split at hpc
      · rename_i hg
        cases hpc
        exact hg
      · exact absurd hpc (by simp)
  · intro tk uk dk df tz l
    induction l with
    | nil => rfl
    | cons fs rest ih => simp [recordsOfItems, ih]

/-- Claim C4 amended-theorem witness: the record extracted from a
one-container page has non-empty title and url. -/
theorem c4_markup_invariant_witness :
    "Hello".data ≠ ([] : List Char) ∧ "http://x.com/x".data ≠ ([] : List Char) :=
  c4_markup_invariant_json_unconditional.1 "http://x.com".data [] helloPage
    ("Hello".data, "http://x.com/x".data, none) (by decide)

/-! ## Claim C5 -/

/-- Claim C5 counterexample: datetime.fromtimestamp converts in the
local timezone of the host.  On a host at UTC+8 (offset 28800, the
timezone matching the zh-CN defaults of the crawler) the item with
epoch 1700000000 is stamped 2023-11-15, while the UTC calendar date of
that epoch second (the embedded converter at offset 0) is
2023-11-14. -/
theorem c5_local_not_utc :
    (crawlJson 28800 (itemDoc (Json.num 1700000000)) (some "data.list")
        [("date_format", "timestamp")]).map JRec.date = [some (Json.str "2023-11-15")]
    ∧ fromtsYMD 0 1700000000 = some "2023-11-14"
    ∧ ("2023-11-15" : String) ≠ "2023-11-14" :=
  ⟨rfl, rfl, by decide⟩

/-- Helper for claim C5: the date field emitted for the one-item feed,
as a function of the raw date value. -/
theorem itemDoc_date_eq (tz : Int) (v : Json) :
    (crawlJson tz (itemDoc v) (some "data.list") [("date_format", "timestamp")]).map JRec.date
    = [if jsonTruthy v then
         match pyIntJ v with
         | none => some v
         | some i =>
           match fromtsYMD tz i with
           | none => some v
           | some s => some (Json.str s)
       else some v] := by
  have h0 : (crawlJson tz (itemDoc v) (some "data.list")
      [("date_format", "timestamp")]).map JRec.date
      = [(recordOfItem "title" "url" "date" (some "timestamp") tz
          [("title", Json.str "T"), ("url", Json.str "/u"), ("date", v)]).date] := rfl
  rw [h0]
  unfold recordOfItem
  simp [lookupS]

/-- Claim C5 (amended): with date_format timestamp, a truthy integer
date value is stamped with the calendar date of that epoch second in
the timezone of the crawler host (UTC only when the host offset makes
no difference), and a value that int() cannot convert is passed through
unchanged. -/
theorem c5_local_date_or_raw (tz ts : Int) (h : ts ≠ 0) (raw : Json)
    (hraw : pyIntJ raw = none) (hrawT : jsonTruthy raw = true) :
    (crawlJson tz (itemDoc (Json.num ts)) (some "data.list")
        [("date_format", "timestamp")]).map JRec.date
      = [match fromtsYMD tz ts with
         | none => some (Json.num ts)
         | some s => some (Json.str s)]
    ∧ (crawlJson tz (itemDoc raw) (some "data.list")
        [("date_format", "timestamp")]).map JRec.date = [some raw] := by
  constructor
  · rw [itemDoc_date_eq]
    have ht : jsonTruthy (Json.num ts) = true := by simp [jsonTruthy, h]
    rw [if_pos ht]
    rfl
  · rw [itemDoc_date_eq]
    rw [if_pos hrawT, hraw]

/-- Claim C5 amended-theorem witness at epoch 1700000000 on a UTC
host. -/
theorem c5_local_date_witness :
    (crawlJson 0 (itemDoc (Json.num 1700000000)) (some "data.list")
        [("date_format", "timestamp")]).map JRec.date = [some (Json.str "2023-11-14")]
    ∧ (crawlJson 0 (itemDoc (Json.str "soon")) (some "data.list")
        [("date_format", "timestamp")]).map JRec.date = [some (Json.str "soon")] := by
  have h := c5_local_date_or_raw 0 1700000000 (by decide) (Json.str "soon")
    (by decide) (by decide)
  refine ⟨?_, h.2⟩
  rw [h.1]
  rfl

/-! ## Claim C6 -/

/-- Helper for claim C6: the executable prefix test agrees with the
prefix relation. -/
theorem prefixOf_iff_aux (p l : List Char) : p.isPrefixOf l = true ↔ p <+: l := by
  induction p generalizing l with
  | nil => simp [List.isPrefixOf]
  | cons a as ih =>
    cases l with
    | nil => simp [List.isPrefixOf]
    | cons b bs => simp [List.isPrefixOf, List.cons_prefix_cons, ih]

/-- Helper for claim C6: none of the rejected prefixes matches the
empty string or a string whose first character is h. -/
theorem not_bad_of_head_aux (l : List Char) (hl : l = [] ∨ ∃ t, l = 'h' :: t) :
    ∀ p ∈ badPrefixes, p.isPrefixOf l = false := by
  intro p hp
  simp only [badPrefixes, List.mem_cons, List.not_mem_nil, or_false] at hp
  rcases hl with rfl | ⟨t, rfl⟩ <;> rcases hp with rfl | rfl | rfl <;>
    simp [List.isPrefixOf]

/-- Helper for claim C6: lowering preserves the prefix test. -/
theorem lower_keeps_pre_aux (p l : List Char) (h : p.isPrefixOf l = true) :
    (lowerL p).isPrefixOf (lowerL l) = true :=
  (prefixOf_iff_aux _ _).mpr (((prefixOf_iff_aux _ _).mp h).map lowerC)

/-- Helper for claim C6: when the lowered string passes the rejected
prefix test, none of the rejected prefixes matches the string
itself. -/
theorem clean_of_check_false_aux (s : List Char)
    (hc : startsWithBad (lowerL s) = false) :
    ∀ p ∈ badPrefixes, p.isPrefixOf s = false := by
  intro p hp
  cases hh : p.isPrefixOf s with
  | false => rfl
  | true =>
    exfalso
    have h2 : (lowerL p).isPrefixOf (lowerL s) = true := lower_keeps_pre_aux p s hh
    have h3 : lowerL p = p := by
      simp only [badPrefixes, List.mem_cons, List.not_mem_nil, or_false] at hp
      rcases hp with rfl | rfl | rfl <;> decide
    rw [h3] at h2
    have h4 : startsWithBad (lowerL s) = true := List.any_eq_true.mpr ⟨p, hp, h2⟩
    rw [hc] at h4
    exact Bool.false_ne_true h4

/-- Helper for claim C6: urlsplit on a string starting http:// parses
the scheme http. -/
theorem urlsplit_scheme_http_aux (t : List Char) :
    (urlsplitL ("http://".data ++ t) []).scheme = "http".data := rfl

/-- Helper for claim C6: urlsplit on a string starting https:// parses
the scheme https. -/
theorem urlsplit_scheme_https_aux (t : List Char) :
    (urlsplitL ("https://".data ++ t) []).scheme = "https".data := rfl

/-- Helper for claim C6: urlunsplit output starts with its non-empty
scheme, hence with h for the http and https schemes. -/
theorem urlunsplit_head_aux (s : SplitResult)
    (h : s.scheme = "http".data ∨ s.scheme = "https".data) :
    ∃ t, urlunsplitL s = 'h' :: t := by
  obtain ⟨sc, nl, pa, qu, fr⟩ := s
  simp only at h
  unfold urlunsplitL
  dsimp only
  rcases h with rfl | rfl <;> split_ifs <;>
    first
      | exact ⟨_, rfl⟩
      | simp_all

/-- Helper for claim C6: when the base URL starts with http:// or
https://, urljoin returns the second argument, the base itself, or a
string starting with h. -/
theorem urljoin_shape_aux (base u : List Char)
    (hb : "http://".data.isPrefixOf base = true ∨ "https://".data.isPrefixOf base = true) :
    urljoinL base u = u ∨ urljoinL base u = base ∨ ∃ t, urljoinL base u = 'h' :: t := by
  have hbscheme : (urlsplitL base []).scheme = "http".data
      ∨ (urlsplitL base []).scheme = "https".data := by
    rcases hb with hb | hb <;> obtain ⟨t, ht⟩ := (prefixOf_iff_aux _ _).mp hb
    · exact Or.inl (ht ▸ urlsplit_scheme_http_aux t)
    · exact Or.inr (ht ▸ urlsplit_scheme_https_aux t)
  have hbne : base ≠ [] := by
    rcases hb with hb | hb <;> obtain ⟨t, ht⟩ := (prefixOf_iff_aux _ _).mp hb <;>
      simp [← ht]
  unfold urljoinL
  rw [if_neg hbne]
  by_cases hu : u = []
  · rw [if_pos hu]
    exact Or.inr (Or.inl rfl)
  · rw [if_neg hu]
    dsimp only
    by_cases h1 : (urlsplitL u (urlsplitL base []).scheme).scheme ≠ (urlsplitL base []).scheme
        ∨ ¬ usesRelativeL.contains (urlsplitL u (urlsplitL base []).scheme).scheme = true
    · rw [if_pos h1]
      exact Or.inl rfl
    · rw [if_neg h1]
      push_neg at h1
      have hsch : (urlsplitL u (urlsplitL base []).scheme).scheme = "http".data
          ∨ (urlsplitL u (urlsplitL base []).scheme).scheme = "https".data := by
        rw [← h1.1] at hbscheme
        exact hbscheme
      split_ifs <;> exact Or.inr (Or.inr (urlunsplit_head_aux _ hsch))

/-- Helper for claim C6: quote output keeps a leading h. -/
theorem quote_head_aux (safe rest : List Char) :
    ∃ t, quoteL safe ('h' :: rest) = 'h' :: t :=
  ⟨_, rfl⟩

/-- Helper for claim C6: the space replacement keeps a space-free
prefix of the lowered string. -/
theorem replace_keeps_bad_aux (p : List Char) (hp : ∀ c ∈ p, c ≠ ' ') :
    ∀ s : List Char, p.isPrefixOf (lowerL s) = true →
      p.isPrefixOf (lowerL (replaceSpaceL s)) = true := by
  induction p with
  | nil => intro s _; simp [List.isPrefixOf]
  | cons q ps ih =>
    intro s h
    cases s with
    | nil => simp [lowerL, List.isPrefixOf] at h
    | cons c cs =>
      have h' : (q == lowerC c) = true ∧ ps.isPrefixOf (lowerL cs) = true := by
        simpa [lowerL, List.isPrefixOf] using h
      have hql : q = lowerC c := by simpa using h'.1
      have hcne : ¬ (c = ' ') := by
        intro hc
        subst hc
        exact hp q (List.mem_cons_self q ps) (by rw [hql]; decide)
      have hrep : replaceSpaceL (c :: cs) = c :: replaceSpaceL cs := by
        simp [replaceSpaceL, hcne]
      rw [hrep]
      have hps : ∀ x ∈ ps, x ≠ ' ' := fun x hx => hp x (List.mem_cons_of_mem q hx)
      simpa [lowerL, List.isPrefixOf, hql] using ih hps cs h'.2

/-- Claim C6: with the crawler base URL an http or https URL, the
value returned by _normalize_url never starts with javascript:,
mailto: or #; and whenever the stripped, percent-decoded input starts
with one of these prefixes case-insensitively, _normalize_url returns
the empty string. -/
theorem c6_normalize_never_bad (base url : List Char)
    (hb : "http://".data.isPrefixOf base = true ∨ "https://".data.isPrefixOf base = true) :
    (∀ p ∈ badPrefixes, p.isPrefixOf (normalizeUrlL base url) = false)
    ∧ (startsWithBad (lowerL (unquoteL (stripL url))) = true →
        normalizeUrlL base url = []) := by
  have hbase_h : ∃ t, base = 'h' :: t := by
    rcases hb with hb | hb <;> obtain ⟨t, ht⟩ := (prefixOf_iff_aux _ _).mp hb
    · exact ⟨"ttp://".data ++ t, by rw [← ht]; rfl⟩
    · exact ⟨"ttps://".data ++ t, by rw [← ht]; rfl⟩
  by_cases h0 : url = []
  · subst h0
    have hz : normalizeUrlL base [] = [] := rfl
    constructor
    · intro p hp
      rw [hz]
      exact not_bad_of_head_aux [] (Or.inl rfl) p hp
    · intro _
      exact hz
  · set s := replaceSpaceL (unquoteL (stripL url)) with hs
    have hunf : normalizeUrlL base url =
        (if startsWithBad (lowerL s) then []
         else if ['/'].isPrefixOf s ∨ ['.', '/'].isPrefixOf s
             ∨ ['.', '.', '/'].isPrefixOf s then
           urljoinL base s
         else if ¬ ("http://".data.isPrefixOf s ∨ "https://".data.isPrefixOf s) then
           if matchWwwPattern s then "http://".data ++ s else urljoinL base s
         else if (urlsplitL s []).scheme = [] ∨ (urlsplitL s []).netloc = [] then
           (if (urlsplitL (urljoinL base s) []).scheme ≠ []
               ∧ (urlsplitL (urljoinL base s) []).netloc ≠ []
            then urljoinL base s else [])
         else quoteL ":/?&=#%".data s) := by
      rw [hs]
      unfold normalizeUrlL
      rw [if_neg h0]
    constructor
    · intro p hp
      rw [hunf]
      by_cases hc : startsWithBad (lowerL s) = true
      · rw [if_pos hc]
        exact not_bad_of_head_aux [] (Or.inl rfl) p hp
      · rw [if_neg hc]
        have hclean := clean_of_check_false_aux s (by simpa using hc)
        have hjoin : ∀ q ∈ badPrefixes, q.isPrefixOf (urljoinL base s) = false := by
          intro q hq
          rcases urljoin_shape_aux base s hb with he | he | ⟨t, he⟩
          · rw [he]; exact hclean q hq
          · rw [he]; exact not_bad_of_head_aux base (Or.inr hbase_h) q hq
          · rw [he]; exact not_bad_of_head_aux _ (Or.inr ⟨t, rfl⟩) q hq
        by_cases hrel : ['/'].isPrefixOf s ∨ ['.', '/'].isPrefixOf s
            ∨ ['.', '.', '/'].isPrefixOf s
        · rw [if_pos hrel]
          exact hjoin p hp
        · rw [if_neg hrel]
          by_cases hhttp : ¬ ("http://".data.isPrefixOf s ∨ "https://".data.isPrefixOf s)
          · rw [if_pos hhttp]
            by_cases hwww : matchWwwPattern s = true
            · rw [if_pos hwww]
              exact not_bad_of_head_aux _ (Or.inr ⟨_, rfl⟩) p hp
            · rw [if_neg hwww]
              exact hjoin p hp
          · rw [if_neg hhttp]
            have hsh : ∃ t, s = 'h' :: t := by
              rcases not_not.mp hhttp with hpre | hpre <;>
                obtain ⟨t, ht⟩ := (prefixOf_iff_aux _ _).mp hpre
              · exact ⟨"ttp://".data ++ t, by rw [← ht]; rfl⟩
              · exact ⟨"ttps://".data ++ t, by rw [← ht]; rfl⟩
            by_cases hpc : (urlsplitL s []).scheme = [] ∨ (urlsplitL s []).netloc = []
            · rw [if_pos hpc]
              by_cases hfx : (urlsplitL (urljoinL base s) []).scheme ≠ []
                  ∧ (urlsplitL (urljoinL base s) []).netloc ≠ []
              · rw [if_pos hfx]
                exact hjoin p hp
              · rw [if_neg hfx]
                exact not_bad_of_head_aux [] (Or.inl rfl) p hp
            · rw [if_neg hpc]
              obtain ⟨t, hts⟩ := hsh
              rw [hts]
              obtain ⟨t2, hq⟩ := quote_head_aux ":/?&=#%".data t
              rw [hq]
              exact not_bad_of_head_aux _ (Or.inr ⟨t2, rfl⟩) p hp
    · intro hbad
      rw [hunf]
      have hcheck : startsWithBad (lowerL s) = true := by
        obtain ⟨p, hp, hpre⟩ := List.any_eq_true.mp hbad
        refine List.any_eq_true.mpr ⟨p, hp, ?_⟩
        have hnosp : ∀ c ∈ p, c ≠ ' ' := by
          simp only [badPrefixes, List.mem_cons, List.not_mem_nil, or_false] at hp
          rcases hp with rfl | rfl | rfl <;> decide
        exact replace_keeps_bad_aux p hnosp _ hpre
      rw [if_pos hcheck]

/-- Claim C6 witness: a mixed-case mailto link is dropped, and the
javascript prefix never survives normalisation of a relative link. -/
theorem c6_normalize_witness :
    normalizeUrlL "http://x.com/".data "MailTo:bob@x.com".data = []
    ∧ "javascript:".data.isPrefixOf
        (normalizeUrlL "http://x.com/".data "/a/b".data) = false :=
  ⟨(c6_normalize_never_bad "http://x.com/".data "MailTo:bob@x.com".data
      (Or.inl (by decide))).2 (by decide),
   (c6_normalize_never_bad "http://x.com/".data "/a/b".data
      (Or.inl (by decide))).1 "javascript:".data (by decide)⟩

/-! ## Claim C7 -/

/-- Helper for claim C7: an element within the first n places of a list
is among its first n elements. -/
theorem mem_take_of_short {α : Type} (x : α) :
    ∀ (n : Nat) (pre suf : List α), pre.length < n → x ∈ (pre ++ x :: suf).take n := by
  intro n pre
  induction pre generalizing n with
  | nil =>
    intro suf h
    cases n with
    | zero => omega
    | succ m => simp [List.take]
  | cons a rest ih =>
    intro suf h
    cases n with
    | zero => omega
    | succ m =>
      simp only [List.cons_append, List.take]
      exact List.mem_cons_of_mem a (ih m suf (by simpa using h))

/-- Claim C7: with the rule set requiring class ad, a node whose class
attribute is ad banner matches (every rule class is in the space-split
class list); an element with such a node among its first five ancestors
is excluded whatever its own attributes; and a node is not excluded
when neither it nor any of its first five ancestors matches, however
many matching ancestors sit further up. -/
theorem c7_class_rule_and_ancestors :
    (∀ (t : String) (a : List (String × String)) (cs : NodeList) (anc : List Node),
      lookupS "class" a = some "ad banner" →
      shouldExclude adRule (Node.elem t a cs) anc = true)
    ∧ (∀ (t t2 : String) (a a2 : List (String × String)) (cs cs2 : NodeList)
        (pre suf : List Node),
      lookupS "class" a = some "ad banner" → pre.length ≤ 4 →
      shouldExclude adRule (Node.elem t2 a2 cs2) (pre ++ Node.elem t a cs :: suf) = true)
    ∧ (∀ (t2 : String) (a2 : List (String × String)) (cs2 : NodeList) (anc : List Node),
      checkElement adRule (Node.elem t2 a2 cs2) = false →
      (∀ x ∈ anc.take 5, checkElement adRule x = false) →
      shouldExclude adRule (Node.elem t2 a2 cs2) anc = false) := by
  have hmatch : ∀ (t : String) (a : List (String × String)) (cs : NodeList),
      lookupS "class" a = some "ad banner" →
      checkElement adRule (Node.elem t a cs) = true := by
    intro t a cs h
    have hcl : classListN (Node.elem t a cs) = splitWsL "ad banner".data := by
      simp [classListN, getAttrN, h]
    simp only [checkElement, adRule, List.any_cons, List.any_nil]
    rw [hcl]
    decide
  refine ⟨?_, ?_, ?_⟩
  · intro t a cs anc h
    simp [shouldExclude, hmatch t a cs h]
  · intro t t2 a a2 cs cs2 pre suf h hlen
    have hmem : Node.elem t a cs ∈ (pre ++ Node.elem t a cs :: suf).take 5 :=
      mem_take_of_short _ 5 pre suf (by omega)
    have hany : ((pre ++ Node.elem t a cs :: suf).take 5).any (checkElement adRule) = true :=
      List.any_eq_true.mpr ⟨_, hmem, hmatch t a cs h⟩
    simp [shouldExclude, hany]
  · intro t2 a2 cs2 anc h1 h2
    have hany : (anc.take 5).any (checkElement adRule) = false :=
      List.any_eq_false.mpr (fun x hx => by simp [h2 x hx])
    simp [shouldExclude, h1, hany]

/-- Claim C7 witness: the three parts applied to a concrete ad node, a
child one level below it, and a node whose only matching ancestor is
six levels up. -/
theorem c7_class_rule_witness :
    shouldExclude adRule (Node.elem "div" [("class", "ad banner")] .nil) [] = true
    ∧ shouldExclude adRule (Node.elem "span" [] .nil)
        ([] ++ Node.elem "div" [("class", "ad banner")] .nil :: []) = true
    ∧ shouldExclude adRule (Node.elem "span" [] .nil)
        ([Node.elem "q" [] .nil, Node.elem "q" [] .nil, Node.elem "q" [] .nil,
          Node.elem "q" [] .nil, Node.elem "q" [] .nil]
          ++ Node.elem "div" [("class", "ad banner")] .nil :: []) = false :=
  ⟨c7_class_rule_and_ancestors.1 "div" _ _ _ rfl,
   c7_class_rule_and_ancestors.2.1 "div" "span" _ _ _ _ [] [] rfl (by decide),
   c7_class_rule_and_ancestors.2.2 "span" _ _ _ rfl (by decide)⟩

/-! ## Claim C8 -/

/-- Claim C8 counterexample: a container whose text contains
2024年01月02日 after an earlier date-like substring; the extractor
normalises the first regex match of the text, so the step returns
2023-05-06, not 2024-01-02. -/
theorem c8_earlier_match_wins :
    containsSub "2024年01月02日".data (getTextStrip twoDatesPage) = true
    ∧ findDateElem twoDatesPage = none
    ∧ extractDateStep twoDatesPage = some "2023-05-06".data
    ∧ "2023-05-06".data ≠ "2024-01-02".data := by
  refine ⟨by decide, rfl, rfl, by decide⟩

/-- Claim C8 (amended): for a container with no date-hinted descendant
whose text has 2024年01月02 as its first date-pattern match (as when
2024年01月02日 occurs with no earlier date-like substring), the date
step returns exactly 2024-01-02: markers replaced by -, day marker
removed, leading and trailing - stripped. -/
theorem c8_first_match_normalised (c : Node) (h1 : findDateElem c = none)
    (h2 : findFirstDate (getTextStrip c) = some "2024年01月02".data) :
    extractDateStep c = some "2024-01-02".data := by
  unfold extractDateStep
  rw [h1, h2]
  rfl

/-- Claim C8 amended-theorem witness on a container whose text is
发布于2024年01月02日. -/
theorem c8_first_match_witness :
    extractDateStep oneDatePage = some "2024-01-02".data :=
  c8_first_match_normalised oneDatePage rfl rfl

/-! ## Claim C9 -/

/-- Claim C9: assuming the storage postcondition of the idempotent
insert (the urls stored after saving are those before plus the crawled
ones), the records selected for notification are exactly the current
records whose url is not in the previous set, and with an empty (or
unavailable, which the caller passes as empty) previous set every
current record is selected. -/
theorem c9_diff_selects_new {α : Type} [DecidableEq α] (before after : Finset α)
    (results : List (RecU α))
    (h : after = before ∪ (results.map RecU.url).toFinset) :
    selectNew before after results = results.filter (fun r => r.url ∉ before)
    ∧ (before = ∅ → selectNew before after results = results) := by
  have hall : ∀ r ∈ results, r.url ∈ (results.map RecU.url).toFinset := by
    intro r hr
    exact List.mem_toFinset.mpr (List.mem_map_of_mem RecU.url hr)
  have main : selectNew before after results
      = results.filter (fun r => r.url ∉ before) := by
    by_cases hb : before = ∅
    · subst hb
      unfold selectNew
      rw [if_neg (by simp)]
      refine List.filter_congr ?_
      intro r hr
      simp [hall r hr]
    · have hafter : after ≠ ∅ := by
        rw [h]
        intro hc
        exact hb (Finset.union_eq_empty.mp hc).1
      unfold selectNew
      rw [if_pos ⟨hb, hafter⟩, h, Finset.union_sdiff_left]
      refine List.filter_congr ?_
      intro r hr
      simp [Finset.mem_sdiff, hall r hr]
  refine ⟨main, ?_⟩
  intro hb
  rw [main]
  refine List.filter_eq_self.mpr ?_
  intro r hr
  simp [hb]

/-- Claim C9 witness at previous set (u1), current records with urls
u1 and u2. -/
theorem c9_diff_witness :
    selectNew ({"u1"} : Finset String) {"u1", "u2"}
        [⟨"t1", "u1", none⟩, ⟨"t2", "u2", none⟩]
      = [⟨"t2", "u2", none⟩] := by
  have h := c9_diff_selects_new ({"u1"} : Finset String) {"u1", "u2"}
    [⟨"t1", "u1", none⟩, ⟨"t2", "u2", none⟩] (by decide)
  rw [h.1]
  rfl

/-! ## Claim C10 -/

/-- Helper for claim C10: pointwise equal predicates give equal any. -/
theorem any_congr_aux {α : Type} (p q : α → Bool) (h : ∀ a, p a = q a) :
    ∀ l : List α, l.any p = l.any q := by
  intro l
  induction l with
  | nil => rfl
  | cons a rest ih => simp [List.any_cons, h a, ih]

/-- Helper for claim C10: a non-mapping entry contributes nothing to
check_element. -/
theorem checkElement_skip_nonDict (pre post : List ExcludeEntry) (v : String) (e : Node) :
    checkElement (pre ++ .nonDict v :: post) e = checkElement (pre ++ post) e := by
  cases e with
  | text s => rfl
  | elem t a cs => simp [checkElement, List.any_append, List.any_cons]

/-- Helper for claim C10: a rule list of non-mapping entries matches
nothing. -/
theorem checkElement_all_nonDict (entries : List ExcludeEntry)
    (hn : ∀ e ∈ entries, ∃ v, e = ExcludeEntry.nonDict v) (x : Node) :
    checkElement entries x = false := by
  cases x with
  | text s => rfl
  | elem t a cs =>
    simp only [checkElement]
    refine List.any_eq_false.mpr ?_
    intro e he
    obtain ⟨v, rfl⟩ := hn e he
    simp

/-- Claim C10: entries of the exclude list that are not mappings are
skipped; a rule list of only non-mapping entries excludes nothing, and
inserting a non-mapping entry anywhere never changes the verdict. -/
theorem c10_non_mapping_entries_skipped (n : Node) (anc : List Node) :
    (∀ entries : List ExcludeEntry,
      (∀ e ∈ entries, ∃ v, e = ExcludeEntry.nonDict v) →
      shouldExclude entries n anc = false)
    ∧ (∀ (pre post : List ExcludeEntry) (v : String),
      shouldExclude (pre ++ ExcludeEntry.nonDict v :: post) n anc
        = shouldExclude (pre ++ post) n anc) := by
  constructor
  · intro entries hn
    cases n with
    | text s => rfl
    | elem t a cs =>
      have h1 := checkElement_all_nonDict entries hn (Node.elem t a cs)
      have h2 : (anc.take 5).any (checkElement entries) = false :=
        List.any_eq_false.mpr (fun x hx => by
          simp [checkElement_all_nonDict entries hn x])
      simp [shouldExclude, h1, h2]
  · intro pre post v
    cases n with
    | text s => rfl
    | elem t a cs =>
      have h1 := checkElement_skip_nonDict pre post v (Node.elem t a cs)
      have h2 := any_congr_aux _ _ (checkElement_skip_nonDict pre post v) (anc.take 5)
      simp [shouldExclude, h1, h2]

/-- Claim C10 witness: a list of one non-mapping entry excludes
nothing, and inserting a non-mapping entry into the ad rule set leaves
the verdict unchanged. -/
theorem c10_non_mapping_witness :
    shouldExclude [ExcludeEntry.nonDict "ads"] (Node.elem "div" [] .nil) [] = false
    ∧ shouldExclude ([] ++ ExcludeEntry.nonDict "x" :: adRule)
        (Node.elem "div" [("class", "ad banner")] .nil) []
      = shouldExclude ([] ++ adRule) (Node.elem "div" [("class", "ad banner")] .nil) [] :=
  ⟨(c10_non_mapping_entries_skipped (Node.elem "div" [] .nil) []).1
      [ExcludeEntry.nonDict "ads"] (by simp),
   (c10_non_mapping_entries_skipped (Node.elem "div" [("class", "ad banner")] .nil) []).2
      [] adRule "x"⟩

end QCrawler
